import Mathlib

/-!
Verification development for the `c_doc_sphinx` documentation generator
(`src/c_doc_sphinx/application.py` and its companion modules).

The development shallowly embeds the comment-extraction and file-resolution
pipeline of `Application` together with the record iteration and emission
stages.  Python strings are Lean `String`s (treated as lists of characters),
the filesystem is an explicit association list, and every fallible Python
operation returns `Except PyError`.

The token stream produced by `pygments.lexers.c_cpp.CLexer.get_tokens` is
modelled by `cLex` below.  Token categories are represented by their Python
`str()` form (for example "Token.Comment.Multiline"), which is exactly the
string the application compares against at
`src/c_doc_sphinx/application.py:202`.  A pygments token type is a tuple
subclass whose `str()` is "Token." followed by the dotted path; it never
compares equal to a plain string such as "Text.Whitespace", which is what
`application.py:194` compares it against.  The model reproduces this by
keeping the "Token." prefix on every category string.
-/

namespace CDocSphinx

/-- One token of the modelled pygments token stream: `cat` is the Python
`str()` rendering of the token type, `val` the matched source text. -/
structure Tok where
  cat : String
  val : String
deriving Repr, DecidableEq

/-- Python regex `\s` on ASCII input (also the default `str.strip` set):
space, tab, newline, carriage return, form feed, vertical tab. -/
def isPyWs (c : Char) : Bool :=
  c = ' ' || c = '\t' || c = '\n' || c = '\r' || c = '\x0b' || c = '\x0c'

/-- pygments rule `[^\S\n]+`: whitespace other than newline. -/
def isHSpace (c : Char) : Bool :=
  c = ' ' || c = '\t' || c = '\r' || c = '\x0b' || c = '\x0c'

/-- First character of a C identifier (`[a-zA-Z_$]`; the model omits the
universal-character-name escapes, which none of the claims exercise). -/
def isIdentStart (c : Char) : Bool :=
  c.isAlpha || c = '_' || c = '$'

/-- Subsequent character of a C identifier. -/
def isIdentChar (c : Char) : Bool :=
  c.isAlphanum || c = '_' || c = '$'

/-- Take the current physical line up to (excluding) the next newline;
used for the modelled preprocessor-directive token. -/
def spanLine : List Char → List Char × List Char
  | [] => ([], [])
  | '\n' :: r => ([], '\n' :: r)
  | c :: r =>
    let p := spanLine r
    (c :: p.1, p.2)

/-- Consume a `//` comment body: pygments `//(?:.|(?<=\\)\n)*\n` continues
across backslash-newlines and includes the terminating newline. -/
def scanSingle : List Char → List Char × List Char
  | [] => ([], [])
  | '\\' :: '\n' :: r =>
    let p := scanSingle r
    ('\\' :: '\n' :: p.1, p.2)
  | '\n' :: r => (['\n'], r)
  | c :: r =>
    let p := scanSingle r
    (c :: p.1, p.2)

/-- Split the text following an opening "/*" at the first "*/" (inclusive),
mirroring pygments' `_comment_multiline` regex, which stops at the first
closing delimiter.  `none` when the comment is unterminated. -/
def commentSplit : List Char → Option (List Char × List Char)
  | [] => none
  | c :: r =>
    if c = '*' && r.head? == some '/' then some (['*', '/'], r.tail)
    else
      match commentSplit r with
      | some p => some (c :: p.1, p.2)
      | none => none

/-- Body of a multiline comment: up to and including the first "*/", or the
whole rest of the input when unterminated (pygments' open-until-EOF rule). -/
def scanMulti (cs : List Char) : List Char × List Char :=
  match commentSplit cs with
  | some p => p
  | none => (cs, [])

/-- Consume a double-quoted string literal body after the opening quote,
handling backslash escapes; includes the closing quote. -/
def scanStringLit : List Char → List Char × List Char
  | [] => ([], [])
  | '\\' :: d :: r =>
    let p := scanStringLit r
    ('\\' :: d :: p.1, p.2)
  | '"' :: r => (['"'], r)
  | c :: r =>
    let p := scanStringLit r
    (c :: p.1, p.2)

/-- pygments `Lexer._preprocess_lexer_input` newline normalization:
`\r\n` and `\r` become `\n`. -/
def normNl : List Char → List Char
  | [] => []
  | c :: r =>
    if c = '\r' then
      if r.head? = some '\n' then normNl r else '\n' :: normNl r
    else c :: normNl r

/-- pygments `ensurenl` option (on by default): append a final newline when
the text does not already end with one. -/
def ensureNl (cs : List Char) : List Char :=
  if cs.getLast? = some '\n' then cs else cs ++ ['\n']

/-- One lexing step of the modelled `CLexer`.  `ls` is true when the current
position is at the start of a physical line, possibly after horizontal
whitespace (where pygments' `^#` / `^(\s*)(#)` preprocessor rules fire).
Categories of tokens other than whitespace and comments are approximations
(pygments distinguishes keywords, numbers, operators, ...); the application
only ever distinguishes "Token.Comment.Multiline" from everything else, and
every category produced here carries the "Token." prefix exactly as
pygments' `str()` does. -/
def nextTok : List Char → Bool → Option (Tok × List Char × Bool)
  | [], _ => none
  | '#' :: r, true =>
    let p := spanLine r
    some (⟨"Token.Comment.Preproc", String.mk ('#' :: p.1)⟩, p.2, false)
  | '\n' :: r, _ => some (⟨"Token.Text.Whitespace", "\n"⟩, r, true)
  | '\\' :: '\n' :: r, _ => some (⟨"Token.Text", "\\\n"⟩, r, true)
  | '/' :: '/' :: r, _ =>
    let p := scanSingle r
    some (⟨"Token.Comment.Single", String.mk ('/' :: '/' :: p.1)⟩, p.2, true)
  | '/' :: '*' :: r, _ =>
    let p := scanMulti r
    some (⟨"Token.Comment.Multiline", String.mk ('/' :: '*' :: p.1)⟩, p.2, false)
  | c :: r, ls =>
    if isHSpace c then
      some (⟨"Token.Text.Whitespace", String.mk (c :: r.takeWhile isHSpace)⟩,
        r.dropWhile isHSpace, ls)
    else if isIdentStart c then
      some (⟨"Token.Name", String.mk (c :: r.takeWhile isIdentChar)⟩,
        r.dropWhile isIdentChar, false)
    else if c.isDigit then
      some (⟨"Token.Literal.Number.Integer", String.mk (c :: r.takeWhile Char.isDigit)⟩,
        r.dropWhile Char.isDigit, false)
    else if c = '"' then
      let p := scanStringLit r
      some (⟨"Token.Literal.String", String.mk ('"' :: p.1)⟩, p.2, false)
    else
      some (⟨"Token.Punctuation", String.mk [c]⟩, r, false)

/-- Run the lexer.  `fuel` bounds the number of emitted tokens; every
`nextTok` step consumes at least one character (`nextTok_consumes` below), so
`cs.length + 1` tokens always suffice. -/
def lexRun : Nat → List Char → Bool → List Tok
  | 0, _, _ => []
  | fuel + 1, cs, ls =>
    match nextTok cs ls with
    | none => []
    | some (t, rest, ls') => t :: lexRun fuel rest ls'

/-- Model of `CLexer().get_tokens(content)` as consumed by
`Application._process_command`: newline normalization, the `ensurenl`
final newline, then tokenization starting at a line start. -/
def cLex (content : String) : List Tok :=
  let cs := ensureNl (normNl content.data)
  lexRun (cs.length + 1) cs true

/-- Python `str.strip()` on ASCII input: drop whitespace from both ends. -/
def pyStrip (s : String) : String :=
  String.mk (((s.data.dropWhile isPyWs).reverse.dropWhile isPyWs).reverse)

/-- Worker for `pySplitlines`; `cur` holds the current line reversed. -/
def splitlinesGo : List Char → List Char → List String
  | [], cur => if cur = [] then [] else [String.mk cur.reverse]
  | '\r' :: '\n' :: rest, cur => String.mk cur.reverse :: splitlinesGo rest []
  | '\n' :: rest, cur => String.mk cur.reverse :: splitlinesGo rest []
  | '\r' :: rest, cur => String.mk cur.reverse :: splitlinesGo rest []
  | c :: rest, cur => splitlinesGo rest (c :: cur)

/-- Python `str.splitlines()` restricted to the `\n`, `\r\n` and `\r` line
boundaries (the exotic unicode boundaries are not modelled): no trailing
empty line is produced for text ending in a line break. -/
def pySplitlines (s : String) : List String :=
  splitlinesGo s.data []

/-- Model of `_COMMENT_LINE_FILTER.sub("", line)` for the pattern `^\s*\*( |$)`
(`src/c_doc_sphinx/application.py:22`): when the line starts with optional
whitespace, then a literal `*` followed by a single space or the end of the
line, that whole prefix (including the space, when present) is removed;
otherwise the line is returned unchanged.  Note the `( |$)` group: a `*`
immediately followed by anything other than a space fails to match.  The
structure mirrors the regex: consume maximal `\s*`, require `*`, then try
the ` ` alternative and fall back to `$`. -/
def commentLineSub (line : String) : String :=
  let rest := line.data.dropWhile isPyWs
  if rest.head? = some '*' then
    if rest.tail.head? = some ' ' then String.mk rest.tail.tail
    else if rest.tail = [] then ""
    else line
  else line

/-- Overview text extracted from a qualifying comment token value
(`src/c_doc_sphinx/application.py:204-209`): strip, split into lines, drop
the first and last line, filter each remaining line, join with newlines. -/
def extractOverview (v : String) : String :=
  String.intercalate "\n"
    ((((pySplitlines (pyStrip v)).drop 1).dropLast).map commentLineSub)

/-- State of one path on the modelled filesystem.  `unreadable` is a file
that exists but whose `open()`/`read()` raises (permissions, encoding). -/
inductive FileState
  | absent
  | unreadable
  | readable (content : String)
deriving Repr, DecidableEq

/-- Filesystem snapshot: association list from path to state, first match
wins; unlisted paths are absent. -/
abbrev FileSystem := List (String × FileState)

/-- State of the given path. -/
def FileSystem.stat (fs : FileSystem) (p : String) : FileState :=
  match fs.find? (fun e => e.1 = p) with
  | some e => e.2
  | none => .absent

/-- Model of `Path.exists()`: true for readable and unreadable files alike. -/
def FileSystem.isOnDisk (fs : FileSystem) (p : String) : Bool :=
  match fs.stat p with
  | .absent => false
  | _ => true

/-- Model of `open(p).read()`: the content when the file is readable, `none` (an
exception in Python) otherwise. -/
def FileSystem.read? (fs : FileSystem) (p : String) : Option String :=
  match fs.stat p with
  | .readable c => some c
  | _ => none

/-- Errors raised by the modelled Python runtime. -/
inductive PyError
  | ioError (path : String)
  | keyError (key : String)
  | attributeError (name : String)
  | valueError (msg : String)
deriving Repr, DecidableEq

/-- Record type `c_doc_sphinx.model.Command`: one entry of the compile-commands
manifest after construction in `Application._iter_commands`. -/
structure Command where
  arguments : List String
  file : String
  directory : String
  output : String
deriving Repr, DecidableEq

/-- Record type `c_doc_sphinx.model.CodeDocument`: the resolver's output record. -/
structure CodeDocument where
  command : Command
  overview : String
  public_interface_files : List String
deriving Repr, DecidableEq

/-- Index of the last '.' in a list of characters. -/
def lastDotIdx : List Char → Option Nat
  | [] => none
  | c :: rest =>
    match lastDotIdx rest with
    | some i => some (i + 1)
    | none => if c = '.' then some 0 else none

/-- Model of `PurePath(name).with_suffix(suf)` on the final path component: pathlib
treats `name[i:]` as the suffix only when the last dot sits strictly inside
the name (`0 < i < len(name) - 1`); otherwise the new suffix is appended. -/
def nameWithSuffix (name : String) (suf : String) : String :=
  match lastDotIdx name.data with
  | some i =>
    if 0 < i && i < name.data.length - 1
    then String.mk (name.data.take i) ++ suf
    else name ++ suf
  | none => name ++ suf

/-- Split a list at every occurrence of the separator character. -/
def splitOnCharGo (sep : Char) : List Char → List Char → List (List Char)
  | [], cur => [cur.reverse]
  | c :: rest, cur =>
    if c = sep then cur.reverse :: splitOnCharGo sep rest []
    else splitOnCharGo sep rest (c :: cur)

/-- Components of a POSIX path string, including empty pieces. -/
def pathSegments (p : String) : List String :=
  (splitOnCharGo '/' p.data []).map String.mk

/-- Model of `Path(p).with_suffix(suf)` for already-normalized POSIX paths (no `.`
or empty components, no trailing slash — the form compile-commands manifests
use; pathlib's normalization of denormalized inputs is not modelled).
Raises `ValueError` when the path has an empty name, as pathlib does for
`Path("")`, `Path("/")` and `Path(".")`. -/
def pathWithSuffix (p : String) (suf : String) : Except PyError String :=
  let segs := pathSegments p
  let name := segs.getLastD ""
  if name = "" || name = "." then
    .error (.valueError "empty name")
  else
    .ok (String.intercalate "/" (segs.dropLast ++ [nameWithSuffix name suf]))

/-- One candidate file inside `_process_command`'s overview loop
(`src/c_doc_sphinx/application.py:191-209`): lex the file content, take the
first token passing the filter `_t[0] != "Text.Whitespace"` — a comparison
of a pygments token type with a plain string, hence true for every token
(all modelled categories carry the "Token." prefix) — and replace the
overview with the extracted text when that token prints as
"Token.Comment.Multiline". -/
def overviewStep (overview : String) (content : String) : String :=
  let fileTokens := cLex content
  let possibleOverview := fileTokens.find? (fun t => t.cat != "Text.Whitespace")
  match possibleOverview with
  | some t =>
    if t.cat == "Token.Comment.Multiline" then extractOverview t.val else overview
  | none => overview

/-- The candidate loop of `_process_command`: open each file in order
(raising on an unopenable one, which fails the whole record) and fold the
overview through `overviewStep`. -/
def overviewLoop (fs : FileSystem) : List String → String → Except PyError String
  | [], overview => .ok overview
  | f :: rest, overview =>
    match fs.read? f with
    | none => .error (.ioError f)
    | some content => overviewLoop fs rest (overviewStep overview content)

/-- Model of `Application._process_command` (`src/c_doc_sphinx/application.py:151-211`):
resolve the sibling `.h` header as the sole public-interface candidate when
it exists on disk, then scan interface file (if any) followed by the
implementation file for an overview. -/
def processCommand (fs : FileSystem) (cmd : Command) : Except PyError CodeDocument :=
  match pathWithSuffix cmd.file ".h" with
  | .error e => .error e
  | .ok header =>
    let public_interface_files := if fs.isOnDisk header then [header] else []
    match overviewLoop fs (public_interface_files ++ [cmd.file]) "" with
    | .error e => .error e
    | .ok overview => .ok ⟨cmd, overview, public_interface_files⟩

/-- Model of `Application._gen_code_documentation`
(`src/c_doc_sphinx/application.py:135-149`): per record, catch any
exception raised by `_process_command`, log a warning naming the record's
source file, and continue with the next record.  Returns the successfully
resolved documents in order together with the files named in warnings. -/
def genCodeDocumentation (fs : FileSystem) : List Command → List CodeDocument × List String
  | [] => ([], [])
  | c :: rest =>
    let p := genCodeDocumentation fs rest
    match processCommand fs c with
    | .ok d => (d :: p.1, p.2)
    | .error _ => (p.1, c.file :: p.2)

/-- The configuration mapping built by `CommandLineConfiguration`
(`src/c_doc_sphinx/cli/command_line_configuration.py`): it holds exactly the
six members of the `ConfigurationKey` enum. -/
structure Configuration where
  outputDirectory : String
  projectRoot : String
  sourcePath : String
  compileCommandsLocation : String
  quiet : Bool
  verbose : Bool
deriving Repr, DecidableEq

/-- The `ConfigurationKey` enum of `src/c_doc_sphinx/model/__init__.py`:
exactly these six members exist. -/
inductive ConfigurationKey
  | OUTPUT_DIRECTORY
  | PROJECT_ROOT
  | SOURCE_PATH
  | COMPILE_COMMANDS_LOCATION
  | QUIET
  | VERBOSE
deriving Repr, DecidableEq

/-- Python attribute access `ConfigurationKey.<name>` on the Enum class:
`EnumMeta.__getattr__` returns the member of that name and raises
`AttributeError` when no member of that name exists. -/
def ConfigurationKey.fromName (n : String) : Except PyError ConfigurationKey :=
  if n = "OUTPUT_DIRECTORY" then .ok .OUTPUT_DIRECTORY
  else if n = "PROJECT_ROOT" then .ok .PROJECT_ROOT
  else if n = "SOURCE_PATH" then .ok .SOURCE_PATH
  else if n = "COMPILE_COMMANDS_LOCATION" then .ok .COMPILE_COMMANDS_LOCATION
  else if n = "QUIET" then .ok .QUIET
  else if n = "VERBOSE" then .ok .VERBOSE
  else .error (.attributeError n)

/-- Python `s.startswith(pre)`. -/
def startsWithStr (s pre : String) : Bool :=
  pre.data.isPrefixOf s.data

/-- Model of `Application._command_included` (`src/c_doc_sphinx/application.py:227-239`).
The Python body first evaluates `ConfigurationKey.EXCLUSION_FILTERS`; that
enum has no such member, so the attribute access raises `AttributeError`
before the exclusion-filter loop or the `startswith` test can run.  The
`.ok` branch below is dead code and models only the reachable-in-intent
`command.file.startswith(source root)` conjunct; the exclusion-filter
regexes cannot be modelled because no such configuration value exists. -/
def commandIncluded (cfg : Configuration) (cmd : Command) : Except PyError Bool :=
  match ConfigurationKey.fromName "EXCLUSION_FILTERS" with
  | .error e => .error e
  | .ok _ => .ok (startsWithStr cmd.file cfg.sourcePath)

/-- One raw manifest entry: a JSON object modelled as an association list
of string fields. -/
abbrev RawEntry := List (String × String)

/-- Python `_d[k]` on a manifest entry: `KeyError` when the key is absent. -/
def RawEntry.get? (d : RawEntry) (k : String) : Except PyError String :=
  match d.find? (fun e => e.1 = k) with
  | some e => .ok e.2
  | none => .error (.keyError k)

/-- Quoting state of the `shlex` model. -/
inductive ShQuote
  | noq
  | sq
  | dq
deriving Repr, DecidableEq

/-- Characters of `shlex.whitespace`: the characters separating words. -/
def isShWs (c : Char) : Bool :=
  c = ' ' || c = '\t' || c = '\r' || c = '\n'

/-- Worker for the `shlex.split` model.  `cur` is the token being built
(reversed), `none` when no token has started.  Single quotes are literal;
inside double quotes a backslash escapes only `"` and `\`; outside quotes a
backslash escapes the next character.  `shlex`'s `ValueError` on an
unterminated quote is not modelled (no claim exercises it): the open token
is emitted instead. -/
def shlexGo : List Char → ShQuote → Option (List Char) → List String
  | [], _, none => []
  | [], _, some cur => [String.mk cur.reverse]
  | '\'' :: r, .noq, cur => shlexGo r .sq (some (cur.getD []))
  | '"' :: r, .noq, cur => shlexGo r .dq (some (cur.getD []))
  | '\\' :: d :: r, .noq, cur => shlexGo r .noq (some (d :: cur.getD []))
  | ['\\'], .noq, cur =>
    match cur with
    | some l => [String.mk l.reverse]
    | none => []
  | c :: r, .noq, cur =>
    if isShWs c then
      match cur with
      | some l => String.mk l.reverse :: shlexGo r .noq none
      | none => shlexGo r .noq none
    else shlexGo r .noq (some (c :: cur.getD []))
  | '\'' :: r, .sq, cur => shlexGo r .noq cur
  | c :: r, .sq, cur => shlexGo r .sq (some (c :: cur.getD []))
  | '"' :: r, .dq, cur => shlexGo r .noq cur
  | '\\' :: d :: r, .dq, cur =>
    if d = '"' || d = '\\' then shlexGo r .dq (some (d :: cur.getD []))
    else shlexGo r .dq (some (d :: '\\' :: cur.getD []))
  | ['\\'], .dq, cur => [String.mk (('\\' :: cur.getD []).reverse)]
  | c :: r, .dq, cur => shlexGo r .dq (some (c :: cur.getD []))

/-- Model of `shlex.split(s)` (POSIX mode), used on the manifest `command`
field in `Application._iter_commands`. -/
def shlexSplit (s : String) : List String :=
  shlexGo s.data .noq none

/-- Construction of one `Command` inside `_iter_commands`
(`src/c_doc_sphinx/application.py:217-222`): the four key lookups happen in
argument order (`command`, `file`, `directory`, `output`) and a missing key
raises `KeyError`. -/
def mkCommand (d : RawEntry) : Except PyError Command :=
  match d.get? "command" with
  | .error e => .error e
  | .ok c =>
    match d.get? "file" with
    | .error e => .error e
    | .ok f =>
      match d.get? "directory" with
      | .error e => .error e
      | .ok dir =>
        match d.get? "output" with
        | .error e => .error e
        | .ok o => .ok ⟨shlexSplit c, f, dir, o⟩

/-- Model of `Application._iter_commands` (`src/c_doc_sphinx/application.py:213-225`)
consumed to exhaustion: yields the constructed, filter-passing commands in
manifest order until the first uncaught exception (from record construction
or from `_command_included`), which is returned alongside the commands
produced before it. -/
def iterCommands (cfg : Configuration) : List RawEntry → List Command × Option PyError
  | [] => ([], none)
  | d :: rest =>
    match mkCommand d with
    | .error e => ([], some e)
    | .ok cmd =>
      match commandIncluded cfg cmd with
      | .error e => ([], some e)
      | .ok true =>
        let p := iterCommands cfg rest
        (cmd :: p.1, p.2)
      | .ok false => iterCommands cfg rest

/-- Model of `Path(p).relative_to(root)` for absolute POSIX paths: succeeds exactly
when root's components are a prefix of p's components, returning the
remaining components (pathlib returns `.` when they are equal). -/
def relativeTo (p root : String) : Except PyError String :=
  let pp := (pathSegments p).filter (fun s => s ≠ "")
  let rp := (pathSegments root).filter (fun s => s ≠ "")
  if rp.isPrefixOf pp then
    let rem := pp.drop rp.length
    .ok (if rem = [] then "." else String.intercalate "/" rem)
  else .error (.valueError "not in subpath")

/-- The per-document index path computed in `Application.run`
(`src/c_doc_sphinx/application.py:57-61`):
`Path("sources")/relative-to-source-root path with suffix ".rst"`. -/
def codeDocFile (cfg : Configuration) (d : CodeDocument) : Except PyError String :=
  match relativeTo d.command.file cfg.sourcePath with
  | .error e => .error e
  | .ok rel =>
    match pathWithSuffix rel ".rst" with
    | .error e => .error e
    | .ok relRst => .ok ("sources/" ++ relRst)

/-- The `clang_options` string of `Application._write_api_file`
(`src/c_doc_sphinx/application.py:110-115`): the arguments matching
`^-(I|D)` joined with commas. -/
def clangOptions (args : List String) : String :=
  String.intercalate ","
    (args.filter (fun a => startsWithStr a "-I" || startsWithStr a "-D"))

/-- Rendering of the `C_DOC_FILE` jinja template
(`src/c_doc_sphinx/templates.py`) with jinja2's default whitespace
behaviour: block tags keep the newline that follows them, the template's
`-%}` / `{%-` markers strip the newline inside each `if` body, and the
two sections are emitted only when their variable is a non-empty string
(`public_interface_files` is already the space-joined string here, as in
`_write_api_file`). -/
def renderCDocFile (relative_path overview clang_options public_interface_files file : String) : String :=
  relative_path ++ "\n"
  ++ String.mk (List.replicate relative_path.length '-') ++ "\n\n"
  ++ (if overview ≠ "" then "Overview\n========" else "")
  ++ "\n\n" ++ overview ++ "\n"
  ++ (if public_interface_files ≠ "" then
      "Public Interface\n================\n\n.. c:autodoc:: " ++ public_interface_files
      ++ "\n   :clang: " ++ clang_options
    else "")
  ++ "\n\nImplementation\n==============\n\n.. c:autodoc:: " ++ file
  ++ "\n   :clang: " ++ clang_options

/-- The document loop of `Application.run`
(`src/c_doc_sphinx/application.py:56-74`), given the stream of resolved
documents: per document compute its index path, skip it when already seen,
otherwise print the index line and write the rendered per-source file
(`_write_api_file`, which recomputes the relative path), threading the
`seen` set.  Returns (index lines, written files as path-content pairs,
first uncaught error).  Filesystem write failures are out of scope: writes
always succeed in the model. -/
def runLoop (cfg : Configuration) : List CodeDocument → List String → List String × List (String × String) × Option PyError
  | [], _ => ([], [], none)
  | d :: rest, seen =>
    match codeDocFile cfg d with
    | .error e => ([], [], some e)
    | .ok cdf =>
      if cdf ∈ seen then runLoop cfg rest seen
      else
        match relativeTo d.command.file cfg.sourcePath with
        | .error e => ([], [], some e)
        | .ok rel =>
          let content := renderCDocFile rel d.overview (clangOptions d.command.arguments)
            (String.intercalate " " d.public_interface_files) d.command.file
          let p := runLoop cfg rest (cdf :: seen)
          (("   " ++ cdf) :: p.1,
            (cfg.outputDirectory ++ "/" ++ cdf, content) :: p.2.1,
            p.2.2)

/-- The fixed index header printed by `Application.run` before the document
loop (`src/c_doc_sphinx/application.py:48-54`), one entry per printed line. -/
def indexHeaderLines : List String :=
  ["C Code Reference", "----------------", "", ".. toctree ::",
    "   :maxdepth: 2", "   :caption: Sources", ""]

/-- Aggregate output of one application run: the index file's lines, the
per-source files written (path and content), the warning log (one entry per
skipped record, naming its source file), and the first uncaught exception
when the run aborted. -/
structure RunOutput where
  indexLines : List String
  files : List (String × String)
  warnings : List String
  fatal : Option PyError
deriving Repr, DecidableEq

/-- Model of `Application.run` over an already-parsed manifest: iterate the records,
resolve each into a document (recoverable per-record failures become
warnings), and emit the index and the per-source files.  Laziness of the
Python generators is flattened: commands constructed before the first
iteration error are processed, and an emission error takes precedence since
it stops the generators from being pulled further.  (When an emission error
aborts the run mid-stream, warnings for records after the abort point are
modelled although Python would never construct those records; no claim
depends on that corner.) -/
def appRun (cfg : Configuration) (fs : FileSystem) (entries : List RawEntry) : RunOutput :=
  let ic := iterCommands cfg entries
  let gen := genCodeDocumentation fs ic.1
  let rl := runLoop cfg gen.1 []
  ⟨indexHeaderLines ++ rl.1, rl.2.1, gen.2,
    match rl.2.2 with
    | some e => some e
    | none => ic.2⟩

/-- Worker for `eraseDupsFirst`: drop elements already in `seen`, keep the
first occurrence of each remaining element. -/
def edfGo [DecidableEq α] (seen : List α) : List α → List α
  | [] => []
  | a :: rest => if a ∈ seen then edfGo seen rest else a :: edfGo (a :: seen) rest

/-- The list with duplicates removed, keeping first occurrences in order —
the order in which `Application.run`'s `seen` set admits paths. -/
def eraseDupsFirst [DecidableEq α] (l : List α) : List α :=
  edfGo [] l

/-- The overview-extraction rule as the spec and the method's own docstring
state it ("a comment that begins as the first non-whitespace token"): scan
for the first token whose category is not whitespace — written with the
full `str()` category, which is the comparison the Python filter would have
needed — and extract when it is a multiline comment.  This definition
follows the spec's words and exists only to be compared against
`processCommand`'s behaviour. -/
def specFirstNonWsOverview (content : String) : Option String :=
  match (cLex content).find? (fun t => t.cat != "Token.Text.Whitespace") with
  | some t =>
    if t.cat == "Token.Comment.Multiline" then some (extractOverview t.val) else none
  | none => none

/-- The line transformation exactly as claim C2 words it: a prefix of
optional whitespace, a literal `*`, then zero or one spaces, removed
whenever present — so `*text` also loses its leading star.  Follows the
claim's words, to be compared against `commentLineSub`. -/
def claimLineStrip (line : String) : String :=
  match line.data.dropWhile isPyWs with
  | '*' :: ' ' :: r => String.mk r
  | '*' :: r => String.mk r
  | _ => line

/-- The line transformation as the amended claim C2 words it: a line
starting with optional whitespace, then a literal `*` that is followed by a
single space or ends the line, has exactly that prefix removed; any other
line — including `*text` — is kept verbatim. -/
def amendedLineStrip (line : String) : String :=
  let rest := line.data.dropWhile isPyWs
  if rest.head? = some '*' ∧ (rest.tail = [] ∨ rest.tail.head? = some ' ') then
    if rest.tail.head? = some ' ' then String.mk rest.tail.tail else ""
  else line

/-- C1 failing input: a record whose source file starts with a tab before
its documentation comment. -/
def cmdC1 : Command := ⟨["cc", "-c", "a.c"], "/proj/src/a.c", "/proj", "a.o"⟩

/-- Filesystem for the C1 failing input; no sibling header exists. -/
def fsC1 : FileSystem :=
  [("/proj/src/a.c", .readable "\t/*\n * Hello.\n */\nint a;\n")]

/-- C2 counterexample record: the comment's only interior line is `*text`,
a star immediately followed by text. -/
def cmdC2 : Command := ⟨["cc"], "/proj/src/c.c", "/proj", "c.o"⟩

/-- Filesystem for the C2 counterexample. -/
def fsC2 : FileSystem :=
  [("/proj/src/c.c", .readable "/*\n*text\n*/\nint c;\n")]

/-- C3 counterexample record. -/
def cmdC3 : Command := ⟨["cc"], "/proj/src/b.c", "/proj", "b.o"⟩

/-- Filesystem for the C3 counterexample: the interface file starts with
its block comment directly, the implementation file has one leading space
before its block comment — so both qualify under the claim's
first-non-whitespace-token rule, but only the interface file qualifies
under the code's first-token rule. -/
def fsC3 : FileSystem :=
  [("/proj/src/b.h", .readable "/*\n * IFACE\n */\nvoid f(void);\n"),
    ("/proj/src/b.c", .readable " /*\n * IMPL\n */\nint x;\n")]

/-- C4 witness record: its interface file exists but its implementation
file is absent from the filesystem. -/
def cmdC4 : Command := ⟨["cc"], "/proj/src/w.c", "/proj", "w.o"⟩

/-- Filesystem for the C4 witness: `w.h` exists, `w.c` does not, and the
second record's file `a.c` is readable. -/
def fsC4 : FileSystem :=
  [("/proj/src/w.h", .readable "/* w */\nint w;\n"),
    ("/proj/src/a.c", .readable "\t/*\n * Hello.\n */\nint a;\n")]

/-- A concrete configuration shared by the emission-stage witnesses. -/
def cfgW : Configuration := ⟨"/out", "/proj", "/proj/src", "cc.json", false, false⟩

/-- Documents for the C7 witness: the first two records map to the same
output path (same source file), the third to a different one. -/
def docsC7 : List CodeDocument :=
  [⟨⟨["cc", "-Ix"], "/proj/src/a.c", "/proj", "a.o"⟩, "OV", []⟩,
    ⟨⟨["cc", "-Dy"], "/proj/src/a.c", "/proj", "a2.o"⟩, "", []⟩,
    ⟨⟨["cc"], "/proj/src/sub/b.c", "/proj", "b.o"⟩, "B", ["/proj/src/sub/b.h"]⟩]

/-- C9 witness entry: a manifest record lacking the "output" key. -/
def entryC9 : RawEntry :=
  [("command", "cc -c a.c"), ("file", "/proj/src/a.c"), ("directory", "/proj")]

/-- C9 witness tail: a subsequent well-formed record, which the abort
nevertheless prevents from being processed. -/
def restC9 : List RawEntry :=
  [[("command", "cc -c b.c"), ("file", "/proj/src/b.c"),
    ("directory", "/proj"), ("output", "b.o")]]

/-- A readable file exists on disk. -/
theorem read?_isOnDisk (fs : FileSystem) (p : String) (c : String)
    (h : fs.read? p = some c) : fs.isOnDisk p = true := by
  unfold FileSystem.read? at h
  unfold FileSystem.isOnDisk
  cases hs : fs.stat p <;> simp_all

/-- When some candidate file is unreadable, the overview loop raises. -/
theorem overviewLoop_error_of_missing (fs : FileSystem) (files : List String) :
    ∀ ov : String, (∃ f ∈ files, fs.read? f = none) →
    ∃ e, overviewLoop fs files ov = Except.error e := by
  induction files with
  | nil =>
    intro ov h
    rcases h with ⟨f, hf, _⟩
    cases hf
  | cons a t ih =>
    intro ov h
    rcases h with ⟨f, hf, hr⟩
    cases hread : fs.read? a with
    | none => exact ⟨.ioError a, by simp [overviewLoop, hread]⟩
    | some c =>
      rcases List.mem_cons.mp hf with rfl | hmem
      · rw [hread] at hr
        cases hr
      · rcases ih (overviewStep ov c) ⟨f, hmem, hr⟩ with ⟨e, he⟩
        exact ⟨e, by simp [overviewLoop, hread, he]⟩

/-- When the first lexed token of a candidate's content is a multiline
comment, `overviewStep` replaces the running overview with the text
extracted from that token. -/
theorem overviewStep_head_multiline (ov content : String) (t : Tok) (ts : List Tok)
    (hl : cLex content = t :: ts) (hc : t.cat = "Token.Comment.Multiline") :
    overviewStep ov content = extractOverview t.val := by
  have hfind : List.find? (fun x : Tok => x.cat != "Text.Whitespace") (t :: ts) = some t := by
    simp [List.find?, hc]
  unfold overviewStep
  rw [hl]
  dsimp only
  rw [hfind]
  simp [hc]

/-- When the implementation file's first lexed token is a multiline comment
and the sibling header is readable, `processCommand` resolves the header as
sole public interface file and the overview extracted from that last token,
whatever the header contributed. -/
theorem processCommand_impl_multiline (fs : FileSystem) (cmd : Command)
    (hdr hc ic : String) (tI : Tok) (tsI : List Tok)
    (hh : pathWithSuffix cmd.file ".h" = .ok hdr)
    (hreadH : fs.read? hdr = some hc)
    (hreadI : fs.read? cmd.file = some ic)
    (hlexI : cLex ic = tI :: tsI)
    (hcatI : tI.cat = "Token.Comment.Multiline") :
    processCommand fs cmd = .ok ⟨cmd, extractOverview tI.val, [hdr]⟩ := by
  have hod : fs.isOnDisk hdr = true := read?_isOnDisk fs hdr hc hreadH
  unfold processCommand
  rw [hh]
  simp only [hod, if_pos]
  have hloop : overviewLoop fs ([hdr] ++ [cmd.file]) "" =
      .ok (overviewStep (overviewStep "" hc) ic) := by
    simp [overviewLoop, hreadH, hreadI]
  rw [hloop, overviewStep_head_multiline _ ic tI tsI hlexI hcatI]

/-- C1: the claim states that leading whitespace tokens are skipped before
the first token is examined, so that whitespace followed by a block comment
still yields an overview.  The code's filter `_t[0] != "Text.Whitespace"`
compares a pygments token type (a tuple) with a plain string and is
therefore always true, so the first token — here the leading tab's
whitespace token — is examined and the overview stays empty, although the
spec-worded extraction (`specFirstNonWsOverview`, matching the claim and
the method's own docstring) yields "Hello." for the same content.  This
evaluates the code at the failing input. -/
theorem claimC1_code_eval :
    processCommand fsC1 cmdC1 = .ok ⟨cmdC1, "", []⟩
    ∧ specFirstNonWsOverview "\t/*\n * Hello.\n */\nint a;\n" = some "Hello." := by
  constructor
  · rfl
  · rfl

/-- C5: the claim says records inside the source root are passed on to the
resolver and records outside it are silently dropped.  In the code,
`_command_included` first evaluates `ConfigurationKey.EXCLUSION_FILTERS`;
the enum has no such member, so every call raises `AttributeError` — no
record is ever passed on and nothing is silent.  This evaluates the code:
the inclusion check raises for every configuration and every record. -/
theorem claimC5_code_eval (cfg : Configuration) (cmd : Command) :
    commandIncluded cfg cmd = .error (.attributeError "EXCLUSION_FILTERS") := by
  rfl

/-- C5 witness: the inclusion check raises at a concrete configuration and
record as well. -/
theorem claimC5_code_eval_witness :
    commandIncluded ⟨"/out", "/proj", "/proj/src", "cc.json", false, false⟩ cmdC1 =
      .error (.attributeError "EXCLUSION_FILTERS") :=
  claimC5_code_eval ⟨"/out", "/proj", "/proj/src", "cc.json", false, false⟩ cmdC1

/-- C6: for every record that resolves, `publicInterfaceFiles` is exactly
the sibling path with the extension replaced by `.h` when that file exists
on disk, and empty otherwise — never more than one entry, never a path
from anywhere else. -/
theorem claimC6 (fs : FileSystem) (cmd : Command) (d : CodeDocument) (hdr : String)
    (hh : pathWithSuffix cmd.file ".h" = .ok hdr)
    (hok : processCommand fs cmd = .ok d) :
    d.public_interface_files = if fs.isOnDisk hdr then [hdr] else [] := by
  unfold processCommand at hok
  rw [hh] at hok
  dsimp only at hok
  cases hloop : overviewLoop fs ((if fs.isOnDisk hdr then [hdr] else []) ++ [cmd.file]) "" with
  | error e => simp [hloop] at hok
  | ok ov =>
    rw [hloop] at hok
    dsimp only at hok
    injection hok with hok
    rw [← hok]

/-- C6 witness: a concrete record whose sibling header exists. -/
theorem claimC6_witness :
    pathWithSuffix "/proj/src/b.c" ".h" = .ok "/proj/src/b.h"
    ∧ processCommand fsC3 cmdC3 = .ok ⟨cmdC3, "IFACE", ["/proj/src/b.h"]⟩
    ∧ (⟨cmdC3, "IFACE", ["/proj/src/b.h"]⟩ : CodeDocument).public_interface_files =
      if fsC3.isOnDisk "/proj/src/b.h" then ["/proj/src/b.h"] else [] :=
  ⟨rfl, rfl, claimC6 fsC3 cmdC3 ⟨cmdC3, "IFACE", ["/proj/src/b.h"]⟩ "/proj/src/b.h" rfl rfl⟩

/-- C8: running the pipeline twice over the same manifest, configuration
and filesystem snapshot produces identical index lines and byte-identical
per-source files — the embedding is a pure function of those inputs, and
the Python run consumes no other state (the `seen` set is only
membership-tested, never iterated). -/
theorem claimC8 (cfg : Configuration) (fs : FileSystem) (entries : List RawEntry)
    (out₁ out₂ : RunOutput)
    (h₁ : appRun cfg fs entries = out₁)
    (h₂ : appRun cfg fs entries = out₂) :
    out₁.indexLines = out₂.indexLines ∧ out₁.files = out₂.files ∧ out₁ = out₂ := by
  subst h₁
  subst h₂
  exact ⟨rfl, rfl, rfl⟩

/-- C8 witness at a concrete configuration, filesystem and manifest. -/
theorem claimC8_witness :
    (appRun ⟨"/out", "/proj", "/proj/src", "cc.json", false, false⟩ fsC1
        [[("command", "cc -c a.c"), ("file", "/proj/src/a.c"),
          ("directory", "/proj"), ("output", "a.o")]]).indexLines =
      (appRun ⟨"/out", "/proj", "/proj/src", "cc.json", false, false⟩ fsC1
        [[("command", "cc -c a.c"), ("file", "/proj/src/a.c"),
          ("directory", "/proj"), ("output", "a.o")]]).indexLines
    ∧ (appRun ⟨"/out", "/proj", "/proj/src", "cc.json", false, false⟩ fsC1
        [[("command", "cc -c a.c"), ("file", "/proj/src/a.c"),
          ("directory", "/proj"), ("output", "a.o")]]).files =
      (appRun ⟨"/out", "/proj", "/proj/src", "cc.json", false, false⟩ fsC1
        [[("command", "cc -c a.c"), ("file", "/proj/src/a.c"),
          ("directory", "/proj"), ("output", "a.o")]]).files
    ∧ appRun ⟨"/out", "/proj", "/proj/src", "cc.json", false, false⟩ fsC1
        [[("command", "cc -c a.c"), ("file", "/proj/src/a.c"),
          ("directory", "/proj"), ("output", "a.o")]] =
      appRun ⟨"/out", "/proj", "/proj/src", "cc.json", false, false⟩ fsC1
        [[("command", "cc -c a.c"), ("file", "/proj/src/a.c"),
          ("directory", "/proj"), ("output", "a.o")]] :=
  claimC8 ⟨"/out", "/proj", "/proj/src", "cc.json", false, false⟩ fsC1
    [[("command", "cc -c a.c"), ("file", "/proj/src/a.c"),
      ("directory", "/proj"), ("output", "a.o")]] _ _ rfl rfl

/-- C4: when any candidate file of a record (resolved interface file, or
the implementation file itself) cannot be opened or read, the whole record
fails inside `_process_command`; the caller catches the exception, logs a
warning naming the record's source file, and only that record is skipped —
a subsequent valid record is still processed and appears in the output
stream. -/
theorem claimC4 (fs : FileSystem) (c₁ c₂ : Command) (hdr : String) (d : CodeDocument)
    (hh : pathWithSuffix c₁.file ".h" = .ok hdr)
    (hmiss : ∃ f ∈ (if fs.isOnDisk hdr then [hdr] else []) ++ [c₁.file], fs.read? f = none)
    (hok : processCommand fs c₂ = .ok d) :
    genCodeDocumentation fs [c₁, c₂] = ([d], [c₁.file]) := by
  rcases overviewLoop_error_of_missing fs
    ((if fs.isOnDisk hdr then [hdr] else []) ++ [c₁.file]) "" hmiss with ⟨e, he⟩
  have hfail : processCommand fs c₁ = .error e := by
    unfold processCommand
    rw [hh]
    dsimp only
    rw [he]
  simp [genCodeDocumentation, hfail, hok]

/-- C4 witness: the first record's implementation file is absent while its
interface file exists; the second record is valid. -/
theorem claimC4_witness :
    pathWithSuffix cmdC4.file ".h" = .ok "/proj/src/w.h"
    ∧ (∃ f ∈ (if FileSystem.isOnDisk fsC4 "/proj/src/w.h"
          then ["/proj/src/w.h"] else []) ++ [cmdC4.file],
        FileSystem.read? fsC4 f = none)
    ∧ processCommand fsC4 cmdC1 = .ok ⟨cmdC1, "", []⟩
    ∧ genCodeDocumentation fsC4 [cmdC4, cmdC1] = ([⟨cmdC1, "", []⟩], [cmdC4.file]) :=
  ⟨rfl, ⟨cmdC4.file, by decide, rfl⟩, rfl,
    claimC4 fsC4 cmdC4 cmdC1 "/proj/src/w.h" ⟨cmdC1, "", []⟩
      rfl ⟨cmdC4.file, by decide, rfl⟩ rfl⟩

/-- C3 counterexample: the interface file's block comment is its very first
lexed token, the implementation file has one leading space before its block
comment.  Under the claim's qualification rule (first non-whitespace token
is a block comment — checked here by the spec-worded
`specFirstNonWsOverview`) both candidates qualify and the claim predicts
the implementation's text "IMPL"; the code resolves "IFACE", because its
broken whitespace filter makes the implementation file not qualify. -/
theorem claimC3_counterexample :
    processCommand fsC3 cmdC3 = .ok ⟨cmdC3, "IFACE", ["/proj/src/b.h"]⟩
    ∧ specFirstNonWsOverview " /*\n * IMPL\n */\nint x;\n" = some "IMPL"
    ∧ specFirstNonWsOverview "/*\n * IFACE\n */\nvoid f(void);\n" = some "IFACE"
    ∧ ("IFACE" : String) ≠ "IMPL" :=
  ⟨rfl, rfl, rfl, by decide⟩

set_option linter.unusedVariables false in
/-- C3 amended: when both the resolved interface file and the
implementation file qualify under the code's actual extraction rule — the
block comment is the very first lexed token of the file, leading
whitespace disqualifying a candidate because the whitespace filter is
ineffective — the resolved overview is the implementation file's extracted
text: candidates are scanned interface-first and the later candidate's
extraction overwrites the earlier one's.  (The interface-file hypotheses
are part of the claim but not needed for the conclusion: the later
candidate wins regardless of what the interface contributed.) -/
theorem claimC3_amended (fs : FileSystem) (cmd : Command)
    (hdr hc ic : String) (tH tI : Tok) (tsH tsI : List Tok)
    (hh : pathWithSuffix cmd.file ".h" = .ok hdr)
    (hreadH : fs.read? hdr = some hc)
    (hreadI : fs.read? cmd.file = some ic)
    (hlexH : cLex hc = tH :: tsH)
    (hcatH : tH.cat = "Token.Comment.Multiline")
    (hlexI : cLex ic = tI :: tsI)
    (hcatI : tI.cat = "Token.Comment.Multiline") :
    processCommand fs cmd = .ok ⟨cmd, extractOverview tI.val, [hdr]⟩ :=
  processCommand_impl_multiline fs cmd hdr hc ic tI tsI hh hreadH hreadI hlexI hcatI

/-- C3 amended witness: both files start with their block comment as very
first token; the resolved overview is the implementation's "IMPL". -/
theorem claimC3_amended_witness :
    pathWithSuffix "/proj/src/b.c" ".h" = .ok "/proj/src/b.h"
    ∧ FileSystem.read?
        [("/proj/src/b.h", FileState.readable "/*\n * IFACE\n */\nvoid f(void);\n"),
          ("/proj/src/b.c", FileState.readable "/*\n * IMPL\n */\nint x;\n")]
        "/proj/src/b.h" = some "/*\n * IFACE\n */\nvoid f(void);\n"
    ∧ cLex "/*\n * IFACE\n */\nvoid f(void);\n" =
        ⟨"Token.Comment.Multiline", "/*\n * IFACE\n */"⟩ ::
          (cLex "/*\n * IFACE\n */\nvoid f(void);\n").tail
    ∧ cLex "/*\n * IMPL\n */\nint x;\n" =
        ⟨"Token.Comment.Multiline", "/*\n * IMPL\n */"⟩ ::
          (cLex "/*\n * IMPL\n */\nint x;\n").tail
    ∧ processCommand
        [("/proj/src/b.h", FileState.readable "/*\n * IFACE\n */\nvoid f(void);\n"),
          ("/proj/src/b.c", FileState.readable "/*\n * IMPL\n */\nint x;\n")]
        cmdC3 =
      .ok ⟨cmdC3, extractOverview "/*\n * IMPL\n */", ["/proj/src/b.h"]⟩ :=
  ⟨rfl, rfl, rfl, rfl,
    claimC3_amended _ cmdC3 "/proj/src/b.h" "/*\n * IFACE\n */\nvoid f(void);\n"
      "/*\n * IMPL\n */\nint x;\n"
      ⟨"Token.Comment.Multiline", "/*\n * IFACE\n */"⟩
      ⟨"Token.Comment.Multiline", "/*\n * IMPL\n */"⟩
      (cLex "/*\n * IFACE\n */\nvoid f(void);\n").tail
      (cLex "/*\n * IMPL\n */\nint x;\n").tail
      rfl rfl rfl rfl rfl rfl rfl⟩

/-- A list of at most two elements loses everything when its first and
last elements are dropped. -/
theorem drop_one_dropLast_nil {α : Type} (l : List α) (h : l.length ≤ 2) :
    (l.drop 1).dropLast = [] := by
  match l with
  | [] => rfl
  | [a] => rfl
  | [a, b] => rfl
  | a :: b :: c :: t => simp at h

/-- A comment whose stripped value spans at most two physical lines
extracts to the empty overview: dropping its first and last lines leaves
nothing. -/
theorem extractOverview_short (v : String)
    (h : (pySplitlines (pyStrip v)).length ≤ 2) :
    extractOverview v = "" := by
  unfold extractOverview
  rw [drop_one_dropLast_nil _ h]
  rfl

set_option linter.unusedVariables false in
/-- C10: when the implementation file begins with a qualifying block
comment of fewer than three physical lines (for example "/* text */" on a
single line), the resolved overview is the empty string — dropping the
comment's first and last physical lines leaves no lines — even though the
interface file, scanned earlier, produced a non-empty overview (those
hypotheses state the claim's scenario; the erasure happens regardless). -/
theorem claimC10 (fs : FileSystem) (cmd : Command)
    (hdr hc ic : String) (tH tI : Tok) (tsH tsI : List Tok)
    (hh : pathWithSuffix cmd.file ".h" = .ok hdr)
    (hreadH : fs.read? hdr = some hc)
    (hreadI : fs.read? cmd.file = some ic)
    (hlexH : cLex hc = tH :: tsH)
    (hcatH : tH.cat = "Token.Comment.Multiline")
    (hnonempty : extractOverview tH.val ≠ "")
    (hlexI : cLex ic = tI :: tsI)
    (hcatI : tI.cat = "Token.Comment.Multiline")
    (hshort : (pySplitlines (pyStrip tI.val)).length ≤ 2) :
    processCommand fs cmd = .ok ⟨cmd, "", [hdr]⟩ := by
  rw [processCommand_impl_multiline fs cmd hdr hc ic tI tsI hh hreadH hreadI hlexI hcatI,
    extractOverview_short tI.val hshort]

/-- C10 witness: the interface file carries a three-line documentation
comment extracting to "Iface doc.", the implementation file a single-line
comment; the resolved overview is empty. -/
theorem claimC10_witness :
    pathWithSuffix "/proj/src/d.c" ".h" = .ok "/proj/src/d.h"
    ∧ cLex "/*\n * Iface doc.\n */\nvoid g(void);\n" =
        ⟨"Token.Comment.Multiline", "/*\n * Iface doc.\n */"⟩ ::
          (cLex "/*\n * Iface doc.\n */\nvoid g(void);\n").tail
    ∧ extractOverview "/*\n * Iface doc.\n */" ≠ ""
    ∧ cLex "/* impl */\nint x;\n" =
        ⟨"Token.Comment.Multiline", "/* impl */"⟩ :: (cLex "/* impl */\nint x;\n").tail
    ∧ (pySplitlines (pyStrip "/* impl */")).length ≤ 2
    ∧ processCommand
        [("/proj/src/d.h", FileState.readable "/*\n * Iface doc.\n */\nvoid g(void);\n"),
          ("/proj/src/d.c", FileState.readable "/* impl */\nint x;\n")]
        ⟨["cc"], "/proj/src/d.c", "/proj", "d.o"⟩ =
      .ok ⟨⟨["cc"], "/proj/src/d.c", "/proj", "d.o"⟩, "", ["/proj/src/d.h"]⟩ :=
  ⟨rfl, rfl, by decide, rfl, by decide,
    claimC10 _ ⟨["cc"], "/proj/src/d.c", "/proj", "d.o"⟩ "/proj/src/d.h"
      "/*\n * Iface doc.\n */\nvoid g(void);\n" "/* impl */\nint x;\n"
      ⟨"Token.Comment.Multiline", "/*\n * Iface doc.\n */"⟩
      ⟨"Token.Comment.Multiline", "/* impl */"⟩
      (cLex "/*\n * Iface doc.\n */\nvoid g(void);\n").tail
      (cLex "/* impl */\nint x;\n").tail
      rfl rfl rfl rfl rfl (by decide) rfl rfl (by decide)⟩

/-- Unfolding equation of `commentSplit` at a cons cell. -/
theorem commentSplit_cons (c : Char) (r : List Char) :
    commentSplit (c :: r) =
      if c = '*' && r.head? == some '/' then some (['*', '/'], r.tail)
      else
        match commentSplit r with
        | some p => some (c :: p.1, p.2)
        | none => none := rfl

/-- Splitting at the first "*/" of `body ++ "*/" ++ tail` finds exactly the
appended delimiter when `body` itself contains none. -/
theorem commentSplit_append (body : List Char) (hb : commentSplit body = none) :
    ∀ tail : List Char,
      commentSplit (body ++ '*' :: '/' :: tail) = some (body ++ ['*', '/'], tail) := by
  induction body with
  | nil => intro tail; rfl
  | cons c r ih =>
    intro tail
    rw [commentSplit_cons] at hb
    by_cases hc : (c = '*' && r.head? == some '/') = true
    · rw [if_pos hc] at hb
      cases hb
    · rw [if_neg hc] at hb
      have hr : commentSplit r = none := by
        cases hsplit : commentSplit r with
        | none => rfl
        | some p => rw [hsplit] at hb; cases hb
      have hc' : ¬((c = '*' && (r ++ '*' :: '/' :: tail).head? == some '/') = true) := by
        intro h
        rcases Bool.and_eq_true_iff.mp h with ⟨h1, h2⟩
        cases r with
        | nil => simp at h2
        | cons r0 rr =>
          apply hc
          rw [Bool.and_eq_true_iff]
          refine ⟨h1, ?_⟩
          simpa using h2
      rw [List.cons_append, commentSplit_cons, if_neg hc', ih hr tail]
      simp

/-- The function `normNl` leaves a carriage-return-free prefix untouched. -/
theorem normNl_append_no_cr (a : List Char) (hcr : ∀ c ∈ a, c ≠ '\r') :
    ∀ b : List Char, normNl (a ++ b) = a ++ normNl b := by
  induction a with
  | nil => intro b; rfl
  | cons c r ih =>
    intro b
    have hc : c ≠ '\r' := hcr c (List.mem_cons_self c r)
    rw [List.cons_append, normNl, if_neg hc,
      ih (fun x hx => hcr x (List.mem_cons_of_mem c hx)) b]
    rfl

/-- The first token the modelled lexer emits for content starting with a
"/*" comment whose body contains no "*/": the whole comment, labelled
multiline. -/
theorem lexRun_comment_head (n : Nat) (body tail : List Char)
    (hb : commentSplit body = none) :
    lexRun (n + 1) ('/' :: '*' :: (body ++ '*' :: '/' :: tail)) true =
      ⟨"Token.Comment.Multiline", String.mk ('/' :: '*' :: (body ++ ['*', '/']))⟩ ::
        lexRun n tail false := by
  have hnext : nextTok ('/' :: '*' :: (body ++ '*' :: '/' :: tail)) true =
      some (⟨"Token.Comment.Multiline",
        String.mk ('/' :: '*' :: (scanMulti (body ++ '*' :: '/' :: tail)).1)⟩,
        (scanMulti (body ++ '*' :: '/' :: tail)).2, false) := rfl
  have hscan : scanMulti (body ++ '*' :: '/' :: tail) = (body ++ ['*', '/'], tail) := by
    unfold scanMulti
    rw [commentSplit_append body hb tail]
  rw [lexRun, hnext, hscan]

/-- The function `pyStrip` is the identity on a string that starts and ends with `/`. -/
theorem pyStrip_eq_self (s : String)
    (h1 : s.data.head? = some '/') (h2 : s.data.getLast? = some '/') :
    pyStrip s = s := by
  unfold pyStrip
  have hd : s.data.dropWhile isPyWs = s.data := by
    cases hsd : s.data with
    | nil => rfl
    | cons c t =>
      rw [hsd] at h1
      simp only [List.head?_cons, Option.some.injEq] at h1
      subst h1
      rw [List.dropWhile_cons]
      simp [isPyWs]
  rw [hd]
  have hr : s.data.reverse.dropWhile isPyWs = s.data.reverse := by
    cases hsr : s.data.reverse with
    | nil => rfl
    | cons c t =>
      have hhead : s.data.reverse.head? = some c := by rw [hsr]; rfl
      rw [← List.getLast?_eq_head?_reverse, h2] at hhead
      injection hhead with hc
      subst hc
      rw [List.dropWhile_cons]
      simp [isPyWs]
  rw [hr, List.reverse_reverse]

/-- The declarative line transformation of the amended claim C2 coincides
with the code's regex substitution model. -/
theorem amendedLineStrip_eq_commentLineSub : amendedLineStrip = commentLineSub := by
  funext line
  unfold amendedLineStrip commentLineSub
  dsimp only
  by_cases h1 : (line.data.dropWhile isPyWs).head? = some '*'
  · by_cases h2 : (line.data.dropWhile isPyWs).tail.head? = some ' '
    · rw [if_pos ⟨h1, Or.inr h2⟩, if_pos h2, if_pos h1, if_pos h2]
    · by_cases h3 : (line.data.dropWhile isPyWs).tail = []
      · rw [if_pos ⟨h1, Or.inl h3⟩, if_neg h2, if_pos h1, if_neg h2, if_pos h3]
      · rw [if_neg ?hcond, if_pos h1, if_neg h2, if_neg h3]
        case hcond =>
          rintro ⟨-, h | h⟩
          · exact h3 h
          · exact h2 h
  · rw [if_neg (fun hh => h1 hh.1), if_neg h1]

/-- Character list of the opening comment delimiter literal. -/
theorem data_open_comment : ("/*" : String).data = ['/', '*'] := rfl

/-- Character list of the closing comment delimiter literal. -/
theorem data_close_comment : ("*/" : String).data = ['*', '/'] := rfl

/-- Lexing a file whose content opens with a "/*" comment (no "*/" inside
its body, no carriage returns) yields that whole comment as the first
token, labelled multiline, whatever follows it. -/
theorem cLex_comment (body rest : String)
    (hb : commentSplit body.data = none)
    (hcr : ∀ c ∈ body.data, c ≠ '\r') :
    ∃ ts, cLex ("/*" ++ body ++ "*/" ++ rest) =
      ⟨"Token.Comment.Multiline", "/*" ++ body ++ "*/"⟩ :: ts := by
  have hval : String.mk ('/' :: '*' :: (body.data ++ ['*', '/'])) = "/*" ++ body ++ "*/" := by
    apply String.ext
    simp [String.data_append, data_open_comment, data_close_comment]
  have hdata : ("/*" ++ body ++ "*/" ++ rest).data =
      ('/' :: '*' :: (body.data ++ ['*', '/'])) ++ rest.data := by
    simp [String.data_append, data_open_comment, data_close_comment]
  have hnocr : ∀ c ∈ '/' :: '*' :: (body.data ++ ['*', '/']), c ≠ '\r' := by
    intro c hcmem
    rcases List.mem_cons.mp hcmem with rfl | hcmem
    · decide
    rcases List.mem_cons.mp hcmem with rfl | hcmem
    · decide
    rcases List.mem_append.mp hcmem with hcmem | hcmem
    · exact hcr c hcmem
    · rcases List.mem_cons.mp hcmem with rfl | hcmem
      · decide
      rcases List.mem_cons.mp hcmem with rfl | hcmem
      · decide
      cases hcmem
  have hnorm : normNl (("/*" ++ body ++ "*/" ++ rest).data) =
      ('/' :: '*' :: (body.data ++ ['*', '/'])) ++ normNl rest.data := by
    rw [hdata, normNl_append_no_cr _ hnocr]
  unfold cLex
  rw [hnorm]
  unfold ensureNl
  by_cases hend : ((('/' :: '*' :: (body.data ++ ['*', '/'])) ++ normNl rest.data).getLast? = some '\n')
  · rw [if_pos hend]
    have hshape : ('/' :: '*' :: (body.data ++ ['*', '/'])) ++ normNl rest.data =
        '/' :: '*' :: (body.data ++ '*' :: '/' :: normNl rest.data) := by
      simp
    rw [hshape, lexRun_comment_head _ body.data (normNl rest.data) hb, hval]
    exact ⟨_, rfl⟩
  · rw [if_neg hend]
    have hshape : (('/' :: '*' :: (body.data ++ ['*', '/'])) ++ normNl rest.data) ++ ['\n'] =
        '/' :: '*' :: (body.data ++ '*' :: '/' :: (normNl rest.data ++ ['\n'])) := by
      simp
    rw [hshape, lexRun_comment_head _ body.data (normNl rest.data ++ ['\n']) hb, hval]
    exact ⟨_, rfl⟩

/-- C2 counterexample: the comment `/*<nl>*text<nl>*/` has the single
interior physical line `*text`.  The claim's transformation
(`claimLineStrip`, star followed by zero or one spaces) predicts the
overview "text"; the code's regex `^\s*\*( |$)` does not match a star
immediately followed by text, so the resolved overview is "*text". -/
theorem claimC2_counterexample :
    processCommand fsC2 cmdC2 = .ok ⟨cmdC2, "*text", []⟩
    ∧ claimLineStrip "*text" = "text"
    ∧ ("*text" : String) ≠ "text" :=
  ⟨rfl, rfl, by decide⟩

/-- C2 amended: when a candidate file's content opens with a block comment
`/* body */` (no "*/" or carriage return inside the body) spanning physical
lines L1..Ln, the extracted overview is lines L2..L(n-1) — the first and
last physical lines dropped — where every line starting with optional
whitespace, a literal `*`, and then a single space or the line's end has
exactly that prefix removed, every other line (including one reading
`*text`) is kept verbatim, and the surviving lines are joined with newline
characters, reproducibly. -/
theorem claimC2_amended (ov body rest : String)
    (hb : commentSplit body.data = none)
    (hcr : ∀ c ∈ body.data, c ≠ '\r') :
    overviewStep ov ("/*" ++ body ++ "*/" ++ rest) =
      String.intercalate "\n"
        ((((pySplitlines ("/*" ++ body ++ "*/")).drop 1).dropLast).map amendedLineStrip) := by
  obtain ⟨ts, hlex⟩ := cLex_comment body rest hb hcr
  rw [overviewStep_head_multiline ov _ _ ts hlex rfl]
  unfold extractOverview
  rw [pyStrip_eq_self ("/*" ++ body ++ "*/")
      (by simp [String.data_append, data_open_comment, data_close_comment])
      (by rw [List.getLast?_eq_head?_reverse]
          simp [String.data_append, data_open_comment, data_close_comment,
            List.reverse_append]),
    amendedLineStrip_eq_commentLineSub]

/-- C2 amended witness: the spec's own example comment. -/
theorem claimC2_amended_witness :
    commentSplit ("*\n * Does a thing.\n " : String).data = none
    ∧ (∀ c ∈ ("*\n * Does a thing.\n " : String).data, c ≠ '\r')
    ∧ overviewStep "prior" ("/*" ++ "*\n * Does a thing.\n " ++ "*/" ++ "\nint a(void);") =
      String.intercalate "\n"
        ((((pySplitlines ("/*" ++ "*\n * Does a thing.\n " ++ "*/")).drop 1).dropLast).map
          amendedLineStrip) :=
  ⟨rfl, by decide,
    claimC2_amended "prior" "*\n * Does a thing.\n " "\nint a(void);" rfl (by decide)⟩

/-- Elements surviving `edfGo` are never in the `seen` accumulator. -/
theorem edfGo_not_mem_seen [DecidableEq α] (l : List α) :
    ∀ seen : List α, ∀ x ∈ edfGo seen l, x ∉ seen := by
  induction l with
  | nil =>
    intro seen x hx
    cases hx
  | cons a t ih =>
    intro seen x hx
    rw [edfGo] at hx
    by_cases ha : a ∈ seen
    · rw [if_pos ha] at hx
      exact ih seen x hx
    · rw [if_neg ha] at hx
      rcases List.mem_cons.mp hx with rfl | hx
      · exact ha
      · intro hxs
        exact ih (a :: seen) x hx (List.mem_cons_of_mem a hxs)

/-- The worker `edfGo` produces no duplicates. -/
theorem edfGo_nodup [DecidableEq α] (l : List α) :
    ∀ seen : List α, (edfGo seen l).Nodup := by
  induction l with
  | nil =>
    intro seen
    exact List.nodup_nil
  | cons a t ih =>
    intro seen
    rw [edfGo]
    by_cases ha : a ∈ seen
    · rw [if_pos ha]
      exact ih seen
    · rw [if_neg ha]
      refine List.nodup_cons.mpr ⟨?_, ih (a :: seen)⟩
      intro hmem
      exact edfGo_not_mem_seen t (a :: seen) a hmem (List.mem_cons_self a seen)

/-- The elements kept by `edfGo` are exactly those of the list outside the
accumulator. -/
theorem edfGo_toFinset [DecidableEq α] (l : List α) :
    ∀ seen : List α, (edfGo seen l).toFinset = l.toFinset \ seen.toFinset := by
  induction l with
  | nil =>
    intro seen
    simp [edfGo]
  | cons a t ih =>
    intro seen
    rw [edfGo]
    by_cases ha : a ∈ seen
    · rw [if_pos ha, ih seen]
      ext x
      simp only [Finset.mem_sdiff, List.mem_toFinset, List.toFinset_cons,
        Finset.mem_insert]
      constructor
      · rintro ⟨hx, hns⟩
        exact ⟨Or.inr hx, hns⟩
      · rintro ⟨hx | hx, hns⟩
        · subst hx
          exact absurd ha hns
        · exact ⟨hx, hns⟩
    · rw [if_neg ha, List.toFinset_cons, ih (a :: seen)]
      ext x
      simp only [Finset.mem_insert, Finset.mem_sdiff, List.mem_toFinset,
        List.toFinset_cons, List.mem_cons]
      constructor
      · rintro (rfl | ⟨hx, hns⟩)
        · exact ⟨Or.inl rfl, ha⟩
        · refine ⟨Or.inr hx, fun hxs => hns (Or.inr hxs)⟩
      · rintro ⟨rfl | hx, hns⟩
        · exact Or.inl rfl
        · by_cases hxa : x = a
          · exact Or.inl hxa
          · exact Or.inr ⟨hx, fun hxs => (hxs.elim hxa hns : False)⟩

/-- The first-occurrence deduplication keeps exactly one element per
distinct value, so its length is the cardinality of the value set. -/
theorem eraseDupsFirst_length_toFinset [DecidableEq α] (l : List α) :
    (eraseDupsFirst l).length = l.toFinset.card := by
  have h1 : (eraseDupsFirst l).toFinset.card = (eraseDupsFirst l).length :=
    List.toFinset_card_of_nodup (edfGo_nodup l [])
  rw [← h1]
  unfold eraseDupsFirst
  rw [edfGo_toFinset l []]
  simp

/-- Evaluation of `Except.toOption` on a success value. -/
theorem toOption_ok {ε α : Type} (a : α) :
    (Except.ok a : Except ε α).toOption = some a := rfl

/-- Invariant of the emission loop: on a run with no fatal error, the index
lines and the written file paths follow the first-occurrence
deduplication of the documents' output paths, threaded through the `seen`
accumulator, and exactly one file is written per index line. -/
theorem runLoop_ok_spec (cfg : Configuration) (docs : List CodeDocument) :
    ∀ seen idx files, runLoop cfg docs seen = (idx, files, none) →
      idx = (edfGo seen (docs.filterMap (fun d => (codeDocFile cfg d).toOption))).map
          (fun p => "   " ++ p)
      ∧ files.map Prod.fst =
          (edfGo seen (docs.filterMap (fun d => (codeDocFile cfg d).toOption))).map
            (fun p => cfg.outputDirectory ++ "/" ++ p)
      ∧ files.length =
          (edfGo seen (docs.filterMap (fun d => (codeDocFile cfg d).toOption))).length := by
  induction docs with
  | nil =>
    intro seen idx files h
    rw [runLoop] at h
    simp only [Prod.mk.injEq] at h
    obtain ⟨h1, h2, -⟩ := h
    subst h1
    subst h2
    simp [edfGo]
  | cons d t ih =>
    intro seen idx files h
    rw [runLoop] at h
    cases hcdf : codeDocFile cfg d with
    | error e =>
      rw [hcdf] at h
      simp only [Prod.mk.injEq] at h
      exact absurd h.2.2 (by simp)
    | ok cdf =>
      rw [hcdf] at h
      dsimp only at h
      by_cases hseen : cdf ∈ seen
      · rw [if_pos hseen] at h
        obtain ⟨h1, h2, h3⟩ := ih seen idx files h
        simp only [List.filterMap_cons, hcdf, toOption_ok, edfGo, if_pos hseen]
        exact ⟨h1, h2, h3⟩
      · rw [if_neg hseen] at h
        cases hrel : relativeTo d.command.file cfg.sourcePath with
        | error e =>
          rw [hrel] at h
          simp only [Prod.mk.injEq] at h
          exact absurd h.2.2 (by simp)
        | ok rel =>
          rw [hrel] at h
          dsimp only at h
          rcases hrl : runLoop cfg t (cdf :: seen) with ⟨i', f', e'⟩
          rw [hrl] at h
          simp only [Prod.mk.injEq] at h
          obtain ⟨h1, h2, h3⟩ := h
          subst h1
          subst h2
          obtain ⟨ih1, ih2, ih3⟩ := ih (cdf :: seen) i' f' (by rw [hrl, h3])
          simp only [List.filterMap_cons, hcdf, toOption_ok, edfGo, if_neg hseen]
          exact ⟨by simp [ih1], by simp [ih2], by simp [ih3]⟩

/-- C7: on a successful emission run, the number of per-source files
written equals the number of distinct output document paths; each distinct
path appears exactly once in the index, index entries follow processing
order with the first occurrence of a duplicated path winning, and files
are written to exactly the indexed paths under the output directory. -/
theorem claimC7 (cfg : Configuration) (docs : List CodeDocument)
    (idx : List String) (files : List (String × String))
    (h : runLoop cfg docs [] = (idx, files, none)) :
    files.length = (docs.filterMap (fun d => (codeDocFile cfg d).toOption)).toFinset.card
    ∧ idx = (eraseDupsFirst (docs.filterMap (fun d => (codeDocFile cfg d).toOption))).map
        (fun p => "   " ++ p)
    ∧ files.map Prod.fst =
        (eraseDupsFirst (docs.filterMap (fun d => (codeDocFile cfg d).toOption))).map
          (fun p => cfg.outputDirectory ++ "/" ++ p) := by
  obtain ⟨h1, h2, h3⟩ := runLoop_ok_spec cfg docs [] idx files h
  refine ⟨?_, h1, h2⟩
  rw [h3, ← eraseDupsFirst_length_toFinset]
  rfl

/-- C7 witness: three documents, two of which map to the same output path;
two files are emitted, matching the two distinct paths. -/
theorem claimC7_witness :
    runLoop cfgW docsC7 [] =
      ((runLoop cfgW docsC7 []).1, (runLoop cfgW docsC7 []).2.1, none)
    ∧ ((runLoop cfgW docsC7 []).2.1.length =
        (docsC7.filterMap (fun d => (codeDocFile cfgW d).toOption)).toFinset.card
      ∧ (runLoop cfgW docsC7 []).1 =
          (eraseDupsFirst (docsC7.filterMap (fun d => (codeDocFile cfgW d).toOption))).map
            (fun p => "   " ++ p)
      ∧ (runLoop cfgW docsC7 []).2.1.map Prod.fst =
          (eraseDupsFirst (docsC7.filterMap (fun d => (codeDocFile cfgW d).toOption))).map
            (fun p => cfgW.outputDirectory ++ "/" ++ p)) :=
  ⟨rfl, claimC7 cfgW docsC7 (runLoop cfgW docsC7 []).1 (runLoop cfgW docsC7 []).2.1 rfl⟩

/-- A failing manifest-entry lookup always raises the `KeyError` naming its
key. -/
theorem get?_error_shape (d : RawEntry) (k : String) (e : PyError)
    (h : d.get? k = .error e) : e = .keyError k := by
  unfold RawEntry.get? at h
  cases hf : d.find? (fun x => x.1 = k) with
  | some p =>
    rw [hf] at h
    cases h
  | none =>
    rw [hf] at h
    injection h with h
    exact h.symm

/-- A manifest entry lacking one of the four required keys makes `Command`
construction raise a `KeyError` for the first missing key in evaluation
order. -/
theorem mkCommand_error_of_missing (d : RawEntry)
    (hmiss : ∃ k ∈ (["command", "file", "directory", "output"] : List String),
      d.get? k = .error (.keyError k)) :
    ∃ k' ∈ (["command", "file", "directory", "output"] : List String),
      d.get? k' = .error (.keyError k') ∧ mkCommand d = .error (.keyError k') := by
  obtain ⟨k, hk, hke⟩ := hmiss
  cases hc : d.get? "command" with
  | error e =>
    have he := get?_error_shape d "command" e hc
    subst he
    exact ⟨"command", by simp, by rw [hc], by rw [mkCommand, hc]⟩
  | ok c =>
    cases hf : d.get? "file" with
    | error e =>
      have he := get?_error_shape d "file" e hf
      subst he
      exact ⟨"file", by simp, by rw [hf], by rw [mkCommand, hc, hf]⟩
    | ok f =>
      cases hdir : d.get? "directory" with
      | error e =>
        have he := get?_error_shape d "directory" e hdir
        subst he
        exact ⟨"directory", by simp, by rw [hdir], by rw [mkCommand, hc, hf, hdir]⟩
      | ok dir =>
        cases ho : d.get? "output" with
        | error e =>
          have he := get?_error_shape d "output" e ho
          subst he
          exact ⟨"output", by simp, by rw [ho], by rw [mkCommand, hc, hf, hdir, ho]⟩
        | ok o =>
          exfalso
          rcases List.mem_cons.mp hk with rfl | hk
          · rw [hc] at hke
            cases hke
          rcases List.mem_cons.mp hk with rfl | hk
          · rw [hf] at hke
            cases hke
          rcases List.mem_cons.mp hk with rfl | hk
          · rw [hdir] at hke
            cases hke
          rcases List.mem_cons.mp hk with rfl | hk
          · rw [ho] at hke
            cases hke
          cases hk

/-- C9: a manifest entry lacking one of the keys "command", "file",
"directory" or "output" makes record construction inside `_iter_commands`
raise; the raise happens while the per-record loop advances its source
iterator — outside the `try`/`except` that guards only `_process_command`
— so it propagates out of the generator and aborts the whole run: no
warning is logged, no file and no index entry is produced, not even for
well-formed later entries. -/
theorem claimC9 (cfg : Configuration) (fs : FileSystem) (d : RawEntry)
    (rest : List RawEntry) (k : String)
    (hk : k ∈ (["command", "file", "directory", "output"] : List String))
    (hmiss : d.get? k = .error (.keyError k)) :
    ∃ k' ∈ (["command", "file", "directory", "output"] : List String),
      d.get? k' = .error (.keyError k')
      ∧ appRun cfg fs (d :: rest) =
          ⟨indexHeaderLines, [], [], some (.keyError k')⟩ := by
  obtain ⟨k', hk', hke', hmk⟩ := mkCommand_error_of_missing d ⟨k, hk, hmiss⟩
  refine ⟨k', hk', hke', ?_⟩
  have hic : iterCommands cfg (d :: rest) = ([], some (.keyError k')) := by
    rw [iterCommands, hmk]
  unfold appRun
  rw [hic]
  rfl

/-- C9 witness: the first entry lacks "output"; the run aborts with its
`KeyError`, producing only the index header — the well-formed second entry
is not processed. -/
theorem claimC9_witness :
    ("output" ∈ (["command", "file", "directory", "output"] : List String))
    ∧ entryC9.get? "output" = .error (.keyError "output")
    ∧ ∃ k' ∈ (["command", "file", "directory", "output"] : List String),
        entryC9.get? k' = .error (.keyError k')
        ∧ appRun cfgW fsC1 (entryC9 :: restC9) =
            ⟨indexHeaderLines, [], [], some (.keyError k')⟩ :=
  ⟨by decide, rfl, claimC9 cfgW fsC1 entryC9 restC9 "output" (by decide) rfl⟩

end CDocSphinx
